import Mathlib

/-!
# Retro-Chat-95 — Secure Session & Transport Layer: verification development

Shallow embedding of the session-code codec, the crypto engine wrappers, the
broker-failover logic and the inbound-frame handler of the Retro-Chat-95
repository (`src/utils/crypto.ts`, `src/App.tsx`, and the newer `types`
module), together with proofs of the testable properties stated in the
specification.

JavaScript strings are modelled as lists of Unicode scalar characters
(`Str := List Char`); platform primitives used by the source (`btoa`/`atob`,
`TextEncoder`/`TextDecoder`, `URL`/`URLSearchParams`, Web Crypto) are given
explicit executable models, documented at their definitions.
-/

namespace RetroChat

/-- Model of a JavaScript string: a list of Unicode scalar characters. -/
abbrev Str := List Char

/-! ## Base64 (model of the platform `btoa` / `atob` primitives)

`btoa` encodes a "binary string" (every char code below 256) to base64 and
throws on larger char codes; `atob` implements WHATWG forgiving-base64
decoding: strip ASCII whitespace, strip trailing `=` padding when the length
is a multiple of four, reject a remaining length of `4k+1` and any character
outside the base64 alphabet, then reassemble bytes from 6-bit groups. -/

/-- The 64-character base64 alphabet, in value order. -/
def b64list : List Char :=
  "ABCDEFGHIJKLMNOPQRSTUVWXYZabcdefghijklmnopqrstuvwxyz0123456789+/".toList

/-- Character for a 6-bit value. -/
def b64char (n : Nat) : Char := b64list.getD n '='

/-- Value of a base64 character, `none` when the character is not in the
alphabet. -/
def b64val (c : Char) : Option Nat :=
  let i := b64list.indexOf c
  if i < 64 then some i else none

/-- 6-bit groups of a byte list (no padding), as produced by base64
encoding. -/
def toSixlets : List Nat → List Nat
  | [] => []
  | [a] => [a / 4, a % 4 * 16]
  | [a, b] => [a / 4, a % 4 * 16 + b / 16, b % 16 * 4]
  | a :: b :: c :: rest =>
      a / 4 :: (a % 4 * 16 + b / 16) :: (b % 16 * 4 + c / 64) :: c % 64 ::
        toSixlets rest

/-- Base64 padding for a byte list of the given length. -/
def b64pad (n : Nat) : Str :=
  if n % 3 = 0 then [] else if n % 3 = 1 then ['=', '='] else ['=']

/-- Base64 encoding of a byte list (model of `btoa` after char-code
extraction). -/
def b64Encode (bs : List Nat) : Str :=
  (toSixlets bs).map b64char ++ b64pad bs.length

/-- Reassemble bytes from 6-bit groups (forgiving base64: a trailing group of
two or three values yields one or two bytes; a trailing single value is an
error). -/
def b64DecodeGroups : List Nat → Option (List Nat)
  | [] => some []
  | [_] => none
  | [a, b] => some [a * 4 + b / 16]
  | [a, b, c] => some [a * 4 + b / 16, b % 16 * 16 + c / 4]
  | a :: b :: c :: d :: rest =>
      (b64DecodeGroups rest).map
        (fun tail => (a * 4 + b / 16) :: (b % 16 * 16 + c / 4) :: (c % 4 * 64 + d) :: tail)

/-- ASCII whitespace stripped by forgiving base64. -/
def isB64Ws (c : Char) : Bool :=
  c = ' ' || c = '\t' || c = '\n' || c = '\r' || c = '\x0c'

/-- Strip trailing `=` padding (at most two characters) when the length is a
multiple of four. -/
def stripPad (l : Str) : Str :=
  if l.length % 4 = 0 then
    match l.reverse with
    | c1 :: c2 :: rest =>
        if c1 = '=' then
          if c2 = '=' then rest.reverse else (c2 :: rest).reverse
        else l
    | [c1] => if c1 = '=' then [] else l
    | [] => l
  else l

/-- Model of the platform `atob`, producing the decoded bytes (`none` models
the thrown `InvalidCharacterError`). -/
def atobBytes (s : Str) : Option (List Nat) :=
  let d := stripPad (s.filter (fun c => ¬ isB64Ws c))
  if d.length % 4 = 1 then none
  else
    match d.mapM b64val with
    | none => none
    | some vals => b64DecodeGroups vals

/-! ### Base64 round-trip -/

/-! ## UTF-8 (model of the platform `TextEncoder` / `TextDecoder` primitives)

`TextEncoder.encode` emits the standard UTF-8 bytes of each Unicode scalar
value; `TextDecoder.decode` (default non-fatal mode) parses UTF-8, replacing
malformed sequences (bad leading byte, bad continuation byte, overlong form,
surrogate, out-of-range value) by U+FFFD instead of throwing.  The decoder
model below is byte-exact on well-formed input; on malformed input it emits
U+FFFD and resynchronises one byte after the bad leading byte, a faithful
simplification of the WHATWG resynchronisation rule that no property proved
here exercises. -/

/-- UTF-8 bytes of one Unicode scalar value. -/
def utf8EncodeChar (n : Nat) : List Nat :=
  if n < 0x80 then [n]
  else if n < 0x800 then [0xC0 + n / 64, 0x80 + n % 64]
  else if n < 0x10000 then [0xE0 + n / 4096, 0x80 + n / 64 % 64, 0x80 + n % 64]
  else [0xF0 + n / 262144, 0x80 + n / 4096 % 64, 0x80 + n / 64 % 64, 0x80 + n % 64]

/-- Model of `TextEncoder.encode` on a JavaScript string. -/
def utf8Encode : Str → List Nat
  | [] => []
  | c :: cs => utf8EncodeChar c.toNat ++ utf8Encode cs

/-- A UTF-8 continuation byte. -/
def isCont (b : Nat) : Bool := 0x80 ≤ b && b ≤ 0xBF

/-- One step of the UTF-8 decoder: given the leading byte and the remaining
input, produce the decoded character and the input left over. -/
def utf8Step (b : Nat) (bs : List Nat) : Char × List Nat :=
  if b < 0x80 then (Char.ofNat b, bs)
  else if 0xC2 ≤ b && b ≤ 0xDF then
    match bs with
    | b2 :: bs2 =>
        if isCont b2 then (Char.ofNat ((b - 0xC0) * 64 + (b2 - 0x80)), bs2)
        else (Char.ofNat 0xFFFD, b2 :: bs2)
    | [] => (Char.ofNat 0xFFFD, [])
  else if 0xE0 ≤ b && b ≤ 0xEF then
    match bs with
    | b2 :: b3 :: bs3 =>
        if isCont b2 && isCont b3 &&
            decide (0x800 ≤ (b - 0xE0) * 4096 + (b2 - 0x80) * 64 + (b3 - 0x80)) &&
            !decide (0xD800 ≤ (b - 0xE0) * 4096 + (b2 - 0x80) * 64 + (b3 - 0x80) ∧
              (b - 0xE0) * 4096 + (b2 - 0x80) * 64 + (b3 - 0x80) ≤ 0xDFFF) then
          (Char.ofNat ((b - 0xE0) * 4096 + (b2 - 0x80) * 64 + (b3 - 0x80)), bs3)
        else (Char.ofNat 0xFFFD, b2 :: b3 :: bs3)
    | short => (Char.ofNat 0xFFFD, short)
  else if 0xF0 ≤ b && b ≤ 0xF4 then
    match bs with
    | b2 :: b3 :: b4 :: bs4 =>
        if isCont b2 && isCont b3 && isCont b4 &&
            decide (0x10000 ≤ (b - 0xF0) * 262144 + (b2 - 0x80) * 4096 +
              (b3 - 0x80) * 64 + (b4 - 0x80)) &&
            decide ((b - 0xF0) * 262144 + (b2 - 0x80) * 4096 +
              (b3 - 0x80) * 64 + (b4 - 0x80) ≤ 0x10FFFF) then
          (Char.ofNat ((b - 0xF0) * 262144 + (b2 - 0x80) * 4096 +
            (b3 - 0x80) * 64 + (b4 - 0x80)), bs4)
        else (Char.ofNat 0xFFFD, b2 :: b3 :: b4 :: bs4)
    | short => (Char.ofNat 0xFFFD, short)
  else (Char.ofNat 0xFFFD, bs)

/-- Model of `TextDecoder.decode` (non-fatal mode), producing characters. -/
def utf8Decode : List Nat → Str
  | [] => []
  | b :: bs => (utf8Step b bs).1 :: utf8Decode (utf8Step b bs).2
termination_by l => l.length
decreasing_by
  have hstep : (utf8Step b bs).2.length ≤ bs.length := by
    unfold utf8Step
    rcases bs with _ | ⟨b2, _ | ⟨b3, _ | ⟨b4, bs4⟩⟩⟩ <;> repeat' split
    all_goals first
      | omega
      | (simp_all; omega)
      | simp_all
  simp only [List.length_cons]
  omega

/-! ## Crypto engine (`src/utils/crypto.ts`)

The source derives an AES-GCM key from the user's password with
`window.crypto.subtle.deriveKey` (PBKDF2, fixed salt, 100000 iterations,
SHA-256, AES-GCM 256) and encrypts/decrypts message bodies with
`window.crypto.subtle.encrypt`/`.decrypt` (AES-GCM, per-message IV).

Web Crypto is a platform primitive, so the AEAD is modelled symbolically:
a ciphertext is an opaque blob recording which derived key and IV produced
it and which plaintext bytes it protects; authenticated decryption succeeds
exactly when the same derived key and IV are supplied, idealising the
2⁻¹²⁸ authentication-tag forgery probability of real AES-GCM.  Since the
derivation is a fixed deterministic function of the password alone (the salt
is a compile-time constant), the derived key is represented by the password
it was derived from. -/

/-- Parameter record of the `deriveKey` call in `getKey`. -/
structure Pbkdf2Config where
  salt : List Nat
  iterations : Nat
  hash : Str
  keyAlgo : Str
  keyLength : Nat
deriving DecidableEq

/-- The fixed salt constant of `getKey`
(`new TextEncoder().encode("RETRO_CHAT_FIXED_SALT_V1")`). -/
def fixedSalt : List Nat := utf8Encode "RETRO_CHAT_FIXED_SALT_V1".toList

/-- Parameters `getKey` passes to `window.crypto.subtle.deriveKey`.  The
`salt` argument of `getKey` (defaulting to `new Uint8Array(16)`) is ignored:
the call always uses `fixedSalt` (crypto.ts lines 30-50). -/
def getKeyConfig (saltArg : List Nat) : Pbkdf2Config :=
  { salt := fixedSalt
    iterations := 100000
    hash := "SHA-256".toList
    keyAlgo := "AES-GCM".toList
    keyLength := 256 }

/-- Model of `getKey`: the symbolic derived key of a password.  Derivation is
deterministic, uses only the fixed salt (the `saltArg` parameter is unused, as
in the source), and is injective in the password in the symbolic model. -/
def getKey (saltArg : List Nat) (password : Str) : Str :=
  password

/-- Default salt argument of `getKey` (`new Uint8Array(16)`), never actually
used by the derivation. -/
def defaultSaltArg : List Nat := List.replicate 16 0

/-- Symbolic AES-GCM ciphertext: opaque to anyone without the key. -/
structure CipherBlob where
  key : Str
  iv : List Nat
  body : List Nat
deriving DecidableEq

/-- The `{ iv, data }` object produced by `encryptMessage` (the source ships
`data` as a serialised byte array; the model keeps it as the opaque blob). -/
structure EncryptedPayload where
  iv : List Nat
  data : CipherBlob
deriving DecidableEq

/-- Symbolic model of `window.crypto.subtle.encrypt` (AES-GCM). -/
def subtleEncrypt (key : Str) (iv : List Nat) (pt : List Nat) : CipherBlob :=
  ⟨key, iv, pt⟩

/-- Symbolic model of `window.crypto.subtle.decrypt` (AES-GCM): succeeds
exactly when key and IV match; `none` models the thrown `OperationError` on
authentication failure. -/
def subtleDecrypt (key : Str) (iv : List Nat) (blob : CipherBlob) :
    Option (List Nat) :=
  if blob.key = key ∧ blob.iv = iv then some blob.body else none

/-- Embedding of `encryptMessage` (crypto.ts lines 52-76).  The fresh random
12-byte IV drawn from `crypto.getRandomValues` is an explicit parameter. -/
def encryptMessage (text : Str) (password : Str) (iv : List Nat) :
    EncryptedPayload :=
  { iv := iv
    data := subtleEncrypt (getKey defaultSaltArg password) iv (utf8Encode text) }

/-- The sentinel string `decryptMessage` substitutes when decryption fails. -/
def decryptionFailedText : Str := "?? [Decryption Failed] ??".toList

/-- Embedding of `decryptMessage` (crypto.ts lines 78-99): decrypt with the
key derived from the password, decode the plaintext bytes; the `try`/`catch`
around the failing `subtle.decrypt` is modelled by the `none` branch, which
returns the sentinel text instead of propagating the exception. -/
def decryptMessage (payload : EncryptedPayload) (password : Str) : Str :=
  match subtleDecrypt (getKey defaultSaltArg password) payload.iv payload.data with
  | some bytes => utf8Decode bytes
  | none => decryptionFailedText

/-! ## Session-code generation and connection-code codec
(`src/utils/crypto.ts` lines 101-158) -/

/-- The alphabet of `generateRandomKey` (crypto.ts line 102). -/
def keyChars : Str :=
  "ABCDEFGHIJKLMNOPQRSTUVWXYZabcdefghijklmnopqrstuvwxyz0123456789".toList

/-- Embedding of `generateRandomKey`: twelve characters of `keyChars` picked
at the indices produced by `Math.floor(Math.random() * chars.length)`,
modelled by the explicit index stream `r`. -/
def generateRandomKey (r : Nat → Fin 62) : Str :=
  (List.range 12).map fun i => keyChars.getD (r i).val 'A'

/-- The segment separator of the connection code (crypto.ts line 121). -/
def SEPARATOR : Char := '$'

/-- Model of the platform `btoa`: base64 of a binary string; `none` models
the `InvalidCharacterError` thrown on char codes of 256 or more. -/
def btoaOpt (s : Str) : Option Str :=
  if s.all (fun c => c.toNat < 256) then some (b64Encode (s.map Char.toNat))
  else none

/-- Embedding of `encodeConnectionCode` (crypto.ts lines 123-131): base64 of
`peerId$key`; the `catch` branch returns the empty string when `btoa`
throws. -/
def encodeConnectionCode (peerId key : Str) : Str :=
  match btoaOpt (peerId ++ SEPARATOR :: key) with
  | some b => b
  | none => []

/-- Model of JavaScript `String.prototype.split` with a one-character
separator. -/
def splitCh (sep : Char) : Str → List Str
  | [] => [[]]
  | c :: cs =>
      match splitCh sep cs with
      | [] => [[]]
      | h :: t => if c = sep then [] :: h :: t else (c :: h) :: t

/-- Model of JavaScript `String.prototype.includes`. -/
def hasSub : Str → Str → Bool
  | [], nd => nd.isEmpty
  | c :: t, nd => nd.isPrefixOf (c :: t) || hasSub t nd

/-- Model of `new URLSearchParams(query).get(name)`: value of the first
`&`-separated `name=value` pair with the given name (percent- and
plus-decoding of the form-urlencoded grammar are not modelled; no property
proved here exercises them). -/
def searchParamsGet (query : Str) (name : Str) : Option Str :=
  (splitCh '&' query).findSome? fun pair =>
    match splitCh '=' pair with
    | [] => none
    | n :: rest => if n = name then some (List.intercalate ['='] rest) else none

/-- Conservative model of `new URL(code).searchParams.get('join')` wrapped in
the source's `try`/`catch`: WHATWG URL parsing throws when the input has no
`:` scheme separator (the only case the proofs rely on, since base64 output
never contains a colon); with a colon present the model reads the `join`
parameter from the part after the first `?`. -/
def urlJoinParam (s : Str) : Option Str :=
  if ':' ∈ s then searchParamsGet ((splitCh '?' s).getD 1 []) "join".toList
  else none

/-- Embedding of `decodeConnectionCode` (crypto.ts lines 133-158).  The
`||` fallbacks of the source replace an absent or empty `join` parameter by
the original input; `atob` failure, caught by the outer `try`, yields
`none` (the source's `null`). -/
def decodeConnectionCode (code : Str) : Option (Str × Str) :=
  let cleanCode :=
    if hasSub code "?join=".toList then
      match searchParamsGet ((splitCh '?' code).getD 1 []) "join".toList with
      | some v => if v = [] then code else v
      | none => code
    else if hasSub code "http".toList then
      match urlJoinParam code with
      | some v => if v = [] then code else v
      | none => code
    else code
  match atobBytes cleanCode with
  | none => none
  | some bytes =>
      let raw := bytes.map Char.ofNat
      let parts := splitCh SEPARATOR raw
      if parts.length = 2 then some (parts.getD 0 [], parts.getD 1 []) else none

/-! ## Broker failover (`src/App.tsx` lines 8-13, 135-283) -/

/-- The ordered relay-candidate list `BROKER_LIST` (App.tsx lines 9-13). -/
def BROKER_LIST : List Str :=
  ["wss://broker.emqx.io:8084/mqtt".toList,
   "wss://public.mqtthq.com:8084/mqtt".toList,
   "wss://test.mosquitto.org:8081".toList]

/-- Embedding of the index update of `tryNextBroker` (App.tsx line 270):
`currentBrokerIndex.current = (currentBrokerIndex.current + 1) %
BROKER_LIST.length`. -/
def tryNextIdx (i : Nat) : Nat := (i + 1) % BROKER_LIST.length

/-- The fixed retry delay of `tryNextBroker` (App.tsx line 282,
`setTimeout(..., 1000)`), in milliseconds. -/
def retryDelayMs : Nat := 1000

/-- Status update emitted at the start of every connection attempt
(App.tsx line 148), naming the candidate being tried. -/
def dialStatus (i : Nat) : Str :=
  "Dialing Relay ".toList ++ (Nat.repr (i + 1)).toList ++ "...".toList

/-- Broker indices attempted, starting at index `i`, when the first `n`
attempts fail: each failure runs `tryNextBroker` once and the next attempt
dials the advanced index. -/
def attemptIndices (i : Nat) : Nat → List Nat
  | 0 => [i]
  | n + 1 => i :: attemptIndices (tryNextIdx i) n

/-! ## Inbound-frame handler (`src/App.tsx` lines 199-246) and the message
log (`types` module) -/

/-- Delivery status of a local chat-log entry (`'sent' | 'read'` in the
newer types module). -/
inductive MsgStatus
  | sent
  | read
deriving DecidableEq

/-- A local chat-log entry (the `Message` interface). -/
structure Message where
  id : Str
  sender : Str
  content : Str
  timestamp : Nat
  isSystem : Bool
  status : Option MsgStatus
deriving DecidableEq

/-- The `NetworkMessage.type` tag union. -/
inductive MsgType
  | CHAT
  | SYSTEM
  | JOIN
  | LEAVE
  | TYPING
  | READ_RECEIPT
deriving DecidableEq

/-- A wire frame (the `NetworkMessage` interface). -/
structure NetworkMessage where
  type : MsgType
  payload : Option EncryptedPayload
  sender : Option Str
  messageId : Option Str
deriving DecidableEq

/-- The `AppScreen` enumeration. -/
inductive AppScreen
  | LOGIN
  | SETUP
  | CHAT
deriving DecidableEq

/-- The component state read and written by the inbound-frame handler:
the message log, the remote-typing flag, the screen, and the encrypted
system announcements the handler publishes (`sendSystemAnnouncement`). -/
structure HandlerState where
  messages : List Message
  isRemoteTyping : Bool
  screen : AppScreen
  outbox : List Str
deriving DecidableEq

/-- Embedding of `addMessage` (App.tsx lines 357-365): append an entry; the
ambient `Date.now()` timestamp and the generated id are explicit
parameters.  The source sets no `status` field. -/
def addMessage (mkId : Str) (now : Nat) (sender content : Str)
    (isSystem : Bool) (st : HandlerState) : HandlerState :=
  { st with
      messages := st.messages ++
        [{ id := mkId, sender := sender, content := content, timestamp := now,
           isSystem := isSystem, status := none }] }

/-- Embedding of the `client.on('message', ...)` handler (App.tsx lines
199-246): drop own non-SYSTEM frames; TYPING sets the remote-typing flag;
CHAT decrypts and appends; SYSTEM decrypts the control string and handles
`USER_JOINED` (host enters chat and queues a `HOST_ACK` announcement; a
foreign sender is logged as a system entry) and `HOST_ACK` (guest logs the
handshake); all other frames fall through unchanged. -/
def onMessage (username : Str) (key : Str) (isHost : Bool) (mkId : Str)
    (now : Nat) (st : HandlerState) (msg : NetworkMessage) : HandlerState :=
  if msg.sender = some username ∧ msg.type ≠ MsgType.SYSTEM then st
  else if msg.type = MsgType.TYPING then { st with isRemoteTyping := true }
  else
    match msg.type, msg.payload with
    | MsgType.CHAT, some p =>
        addMessage mkId now
          (match msg.sender with
            | some s => if s = [] then "Unknown".toList else s
            | none => "Unknown".toList)
          (decryptMessage p key) false st
    | MsgType.SYSTEM, some p =>
        let status := decryptMessage p key
        if status = "USER_JOINED".toList then
          let st1 :=
            if isHost then
              { st with
                  screen := AppScreen.CHAT
                  outbox := st.outbox ++ ["HOST_ACK".toList] }
            else st
          if msg.sender ≠ some username then
            addMessage mkId now "SYSTEM".toList
              (msg.sender.getD "undefined".toList ++
                " entered the secure channel.".toList) true st1
          else st1
        else if status = "HOST_ACK".toList ∧ ¬ isHost then
          addMessage mkId now "SYSTEM".toList
            "Secure handshake complete.".toList true st
        else st
    | _, _ => st

/-- Modelled from the spec: the READ_RECEIPT branch of the session
controller's frame dispatch.  The newer types module under `src/` declares
the `READ_RECEIPT` frame type, the `messageId` reference field and the
`Message.status` checkmark field, but the App revision that handles the
frame is not among the sources; per the spec, "READ_RECEIPT looks up the
referenced local message id and flips its status to `read` (no-op if the id
is unknown — must not throw)". -/
def handleReadReceipt (log : List Message) (mid : Str) : List Message :=
  log.map fun m =>
    if m.id = mid then { m with status := some MsgStatus.read } else m

/-! ## Supporting lemmas: base64 round-trip -/

theorem b64val_b64char : ∀ i : Fin 64, b64val (b64char i.val) = some i.val := by
  decide

theorem b64char_mem (v : Nat) (h : v < 64) : b64char v ∈ b64list := by
  have h64 : ∀ i : Fin 64, b64char i.val ∈ b64list := by decide
  exact h64 ⟨v, h⟩

theorem b64char_ne_eq (v : Nat) (h : v < 64) : b64char v ≠ '=' := by
  have h64 : ∀ i : Fin 64, b64char i.val ≠ '=' := by decide
  exact h64 ⟨v, h⟩

theorem toSixlets_lt (bs : List Nat) (h : ∀ b ∈ bs, b < 256) :
    ∀ v ∈ toSixlets bs, v < 64 := by
  induction bs using toSixlets.induct with
  | case1 => simp [toSixlets]
  | case2 a =>
      have ha := h a (by simp)
      intro v hv
      simp only [toSixlets, List.mem_cons, List.not_mem_nil, or_false] at hv
      rcases hv with rfl | rfl <;> omega
  | case3 a b =>
      have ha := h a (by simp)
      have hb := h b (by simp)
      intro v hv
      simp only [toSixlets, List.mem_cons, List.not_mem_nil, or_false] at hv
      rcases hv with rfl | rfl | rfl <;> omega
  | case4 a b c rest ih =>
      have ha := h a (by simp)
      have hb := h b (by simp)
      have hc := h c (by simp)
      have ih' := ih (fun x hx => h x (by simp [hx]))
      intro v hv
      simp only [toSixlets, List.mem_cons] at hv
      rcases hv with rfl | rfl | rfl | rfl | hv
      · omega
      · omega
      · omega
      · omega
      · exact ih' v hv

theorem b64DecodeGroups_toSixlets (bs : List Nat) (h : ∀ b ∈ bs, b < 256) :
    b64DecodeGroups (toSixlets bs) = some bs := by
  induction bs using toSixlets.induct with
  | case1 => rfl
  | case2 a =>
      have ha := h a (by simp)
      simp only [toSixlets, b64DecodeGroups, Option.some.injEq, List.cons.injEq,
        and_true]
      omega
  | case3 a b =>
      have ha := h a (by simp)
      have hb := h b (by simp)
      simp only [toSixlets, b64DecodeGroups, Option.some.injEq, List.cons.injEq,
        and_true]
      omega
  | case4 a b c rest ih =>
      have ha := h a (by simp)
      have hb := h b (by simp)
      have hc := h c (by simp)
      have ih' := ih (fun x hx => h x (by simp [hx]))
      simp only [toSixlets, b64DecodeGroups, ih', Option.map_some',
        Option.some.injEq, List.cons.injEq]
      refine ⟨by omega, by omega, by omega, trivial⟩

theorem b64pad_length (n : Nat) :
    (b64pad n).length = if n % 3 = 0 then 0 else if n % 3 = 1 then 2 else 1 := by
  unfold b64pad
  rcases (show n % 3 = 0 ∨ n % 3 = 1 ∨ n % 3 = 2 by omega) with h3 | h3 | h3 <;>
    simp [h3]

theorem toSixlets_length (bs : List Nat) :
    (toSixlets bs).length =
      bs.length / 3 * 4 +
        (if bs.length % 3 = 0 then 0 else if bs.length % 3 = 1 then 2 else 3) := by
  induction bs using toSixlets.induct with
  | case1 => simp [toSixlets]
  | case2 a => simp [toSixlets]
  | case3 a b => simp [toSixlets]
  | case4 a b c rest ih =>
      have hm : (rest.length + 1 + 1 + 1) % 3 = rest.length % 3 := by omega
      have hd : (rest.length + 1 + 1 + 1) / 3 = rest.length / 3 + 1 := by omega
      simp only [toSixlets, List.length_cons, ih, hm, hd]
      rcases (show rest.length % 3 = 0 ∨ rest.length % 3 = 1 ∨ rest.length % 3 = 2
          by omega) with h3 | h3 | h3 <;> simp [h3] <;> omega

theorem stripPad_append (xs : Str) (n : Nat) (hx : ∀ c ∈ xs, c ≠ '=')
    (hlen : (xs.length + (b64pad n).length) % 4 = 0) :
    stripPad (xs ++ b64pad n) = xs := by
  have hcond : (xs ++ b64pad n).length % 4 = 0 := by simpa using hlen
  rcases (show n % 3 = 0 ∨ n % 3 = 1 ∨ n % 3 = 2 by omega) with h3 | h3 | h3
  · have hp : b64pad n = [] := by simp [b64pad, h3]
    rw [hp, List.append_nil] at hcond ⊢
    unfold stripPad
    rw [if_pos hcond]
    rcases hxs : xs.reverse with _ | ⟨c1, _ | ⟨c2, rest⟩⟩
    · rfl
    · have hc1 : c1 ≠ '=' := hx _ (List.mem_reverse.mp (by rw [hxs]; simp))
      show (if c1 = '=' then ([] : Str) else xs) = xs
      rw [if_neg hc1]
    · have hc1 : c1 ≠ '=' := hx _ (List.mem_reverse.mp (by rw [hxs]; simp))
      show (if c1 = '=' then
          if c2 = '=' then rest.reverse else (c2 :: rest).reverse else xs) = xs
      rw [if_neg hc1]
  · have hp : b64pad n = ['=', '='] := by simp [b64pad, h3]
    rw [hp] at hcond ⊢
    unfold stripPad
    rw [if_pos hcond]
    have hrev : (xs ++ ['=', '=']).reverse = '=' :: '=' :: xs.reverse := by simp
    rw [hrev]
    show (if '=' = '=' then
        if '=' = '=' then xs.reverse.reverse else ('=' :: xs.reverse).reverse
        else xs ++ ['=', '=']) = xs
    simp
  · have hp : b64pad n = ['='] := by
      simp only [b64pad]
      rw [if_neg (by omega), if_neg (by omega)]
    rw [hp] at hcond ⊢
    unfold stripPad
    rw [if_pos hcond]
    have hrev : (xs ++ ['=']).reverse = '=' :: xs.reverse := by simp
    rw [hrev]
    rcases hxs : xs.reverse with _ | ⟨c, r⟩
    · have : xs = [] := by simpa using congrArg List.reverse hxs
      show (if '=' = '=' then ([] : Str) else xs ++ ['=']) = xs
      rw [if_pos rfl, this]
    · have hc : c ≠ '=' := hx _ (List.mem_reverse.mp (by rw [hxs]; simp))
      show (if '=' = '=' then
          if c = '=' then r.reverse else (c :: r).reverse else xs ++ ['=']) = xs
      rw [if_pos rfl, if_neg hc]
      have := congrArg List.reverse hxs
      simpa using this.symm

theorem mapM_b64val_map (vs : List Nat) (h : ∀ v ∈ vs, v < 64) :
    (vs.map b64char).mapM b64val = some vs := by
  induction vs with
  | nil => rfl
  | cons v vs ih =>
      have hv := h v (by simp)
      have hchar := b64val_b64char ⟨v, hv⟩
      have ih' := ih (fun x hx => h x (by simp [hx]))
      simp only [List.map_cons, List.mapM_cons, hchar, ih', Option.pure_def,
        Option.bind_eq_bind, Option.bind_some]
      rfl

theorem b64Encode_chars (bs : List Nat) (h : ∀ b ∈ bs, b < 256) :
    ∀ c ∈ b64Encode bs, c ∈ b64list ∨ c = '=' := by
  intro c hc
  simp only [b64Encode, List.mem_append] at hc
  rcases hc with hc | hc
  · rcases List.mem_map.mp hc with ⟨v, hv, rfl⟩
    exact Or.inl (b64char_mem v (toSixlets_lt bs h v hv))
  · right
    simp only [b64pad] at hc
    split at hc
    · simp at hc
    · split at hc <;> simp at hc <;> simp [hc]

theorem atobBytes_b64Encode (bs : List Nat) (h : ∀ b ∈ bs, b < 256) :
    atobBytes (b64Encode bs) = some bs := by
  have hlistws : b64list.all (fun c => !isB64Ws c) = true := by decide
  have hnows : ∀ c ∈ b64Encode bs, isB64Ws c = false := by
    intro c hc
    rcases b64Encode_chars bs h c hc with hm | rfl
    · have := List.all_eq_true.mp hlistws c hm
      simpa using this
    · decide
  have hfilter : (b64Encode bs).filter (fun c => ¬ isB64Ws c) = b64Encode bs := by
    rw [List.filter_eq_self]
    intro c hc
    simp [hnows c hc]
  have hne : ∀ c ∈ (toSixlets bs).map b64char, c ≠ '=' := by
    intro c hc
    rcases List.mem_map.mp hc with ⟨v, hv, rfl⟩
    exact b64char_ne_eq v (toSixlets_lt bs h v hv)
  have hlen : (((toSixlets bs).map b64char).length + (b64pad bs.length).length) % 4
      = 0 := by
    rw [List.length_map, toSixlets_length, b64pad_length]
    rcases (show bs.length % 3 = 0 ∨ bs.length % 3 = 1 ∨ bs.length % 3 = 2
        by omega) with h3 | h3 | h3 <;> simp [h3] <;> omega
  have hstrip : stripPad (b64Encode bs) = (toSixlets bs).map b64char :=
    stripPad_append _ _ hne hlen
  have hlen1 : ¬ ((toSixlets bs).map b64char).length % 4 = 1 := by
    rw [List.length_map, toSixlets_length]
    rcases (show bs.length % 3 = 0 ∨ bs.length % 3 = 1 ∨ bs.length % 3 = 2
        by omega) with h3 | h3 | h3 <;> simp [h3] <;> omega
  unfold atobBytes
  rw [hfilter, hstrip, if_neg hlen1, mapM_b64val_map _ (toSixlets_lt bs h)]
  exact b64DecodeGroups_toSixlets bs h

/-! ## Supporting lemmas: UTF-8 round-trip -/

theorem utf8Step_length (b : Nat) (bs : List Nat) :
    (utf8Step b bs).2.length ≤ bs.length := by
  unfold utf8Step
  rcases bs with _ | ⟨b2, _ | ⟨b3, _ | ⟨b4, bs4⟩⟩⟩ <;> repeat' split
  all_goals first
    | omega
    | (simp_all; omega)
    | simp_all

theorem char_scalar (c : Char) :
    c.toNat < 1114112 ∧ ¬ (55296 ≤ c.toNat ∧ c.toNat ≤ 57343) := by
  rcases c.valid with h | ⟨h1, h2⟩
  · have h' : c.val.toNat < 55296 := h
    refine ⟨by simp only [Char.toNat]; omega, by simp only [Char.toNat]; omega⟩
  · have h1' : 57343 < c.val.toNat := h1
    have h2' : c.val.toNat < 1114112 := h2
    refine ⟨by simp only [Char.toNat]; omega, by simp only [Char.toNat]; omega⟩

theorem utf8Decode_cons (b : Nat) (bs : List Nat) :
    utf8Decode (b :: bs) = (utf8Step b bs).1 :: utf8Decode (utf8Step b bs).2 := by
  rw [utf8Decode]

theorem utf8Step_ascii (b : Nat) (bs : List Nat) (h : b < 0x80) :
    utf8Step b bs = (Char.ofNat b, bs) := by
  unfold utf8Step
  rw [if_pos h]

theorem utf8Step_two (b b2 : Nat) (bs : List Nat) (hb : 0xC2 ≤ b ∧ b ≤ 0xDF)
    (hc : isCont b2 = true) :
    utf8Step b (b2 :: bs) = (Char.ofNat ((b - 0xC0) * 64 + (b2 - 0x80)), bs) := by
  unfold utf8Step
  rw [if_neg (by omega), if_pos (by simp; omega)]
  show (if isCont b2 = true then _ else _) = _
  rw [if_pos hc]

theorem utf8Step_three (b b2 b3 : Nat) (bs : List Nat) (hb : 0xE0 ≤ b ∧ b ≤ 0xEF)
    (hc2 : isCont b2 = true) (hc3 : isCont b3 = true)
    (hlo : 0x800 ≤ (b - 0xE0) * 4096 + (b2 - 0x80) * 64 + (b3 - 0x80))
    (hsur : ¬ (0xD800 ≤ (b - 0xE0) * 4096 + (b2 - 0x80) * 64 + (b3 - 0x80) ∧
      (b - 0xE0) * 4096 + (b2 - 0x80) * 64 + (b3 - 0x80) ≤ 0xDFFF)) :
    utf8Step b (b2 :: b3 :: bs) =
      (Char.ofNat ((b - 0xE0) * 4096 + (b2 - 0x80) * 64 + (b3 - 0x80)), bs) := by
  unfold utf8Step
  rw [if_neg (by omega), if_neg (by simp; omega), if_pos (by simp; omega)]
  show (if _ then _ else _) = _
  rw [if_pos (by simp [hc2, hc3, hlo, hsur])]

theorem utf8Step_four (b b2 b3 b4 : Nat) (bs : List Nat) (hb : 0xF0 ≤ b ∧ b ≤ 0xF4)
    (hc2 : isCont b2 = true) (hc3 : isCont b3 = true) (hc4 : isCont b4 = true)
    (hlo : 0x10000 ≤ (b - 0xF0) * 262144 + (b2 - 0x80) * 4096 + (b3 - 0x80) * 64 +
      (b4 - 0x80))
    (hhi : (b - 0xF0) * 262144 + (b2 - 0x80) * 4096 + (b3 - 0x80) * 64 +
      (b4 - 0x80) ≤ 0x10FFFF) :
    utf8Step b (b2 :: b3 :: b4 :: bs) =
      (Char.ofNat ((b - 0xF0) * 262144 + (b2 - 0x80) * 4096 + (b3 - 0x80) * 64 +
        (b4 - 0x80)), bs) := by
  unfold utf8Step
  rw [if_neg (by omega), if_neg (by simp; omega), if_neg (by simp; omega),
    if_pos (by simp; omega)]
  show (if _ then _ else _) = _
  rw [if_pos (by simp [hc2, hc3, hc4, hlo, hhi])]

theorem utf8Decode_encodeChar (c : Char) (rest : List Nat) :
    utf8Decode (utf8EncodeChar c.toNat ++ rest) = c :: utf8Decode rest := by
  obtain ⟨hlt, hsur⟩ := char_scalar c
  have hofnat : Char.ofNat c.toNat = c := Char.ofNat_toNat c
  set n := c.toNat with hn
  rcases (show n < 0x80 ∨ (0x80 ≤ n ∧ n < 0x800) ∨ (0x800 ≤ n ∧ n < 0x10000) ∨
      (0x10000 ≤ n ∧ n < 1114112) by omega) with h | ⟨h1, h2⟩ | ⟨h1, h2⟩ | ⟨h1, h2⟩
  · rw [utf8EncodeChar, if_pos h]
    rw [List.cons_append, List.nil_append, utf8Decode_cons, utf8Step_ascii _ _ h,
      hofnat]
  · rw [utf8EncodeChar, if_neg (by omega), if_pos h2]
    rw [List.cons_append, List.cons_append, List.nil_append, utf8Decode_cons,
      utf8Step_two _ _ _ (by omega) (by simp [isCont]; omega)]
    rw [show (0xC0 + n / 64 - 0xC0) * 64 + (0x80 + n % 64 - 0x80) = n by omega,
      hofnat]
  · rw [utf8EncodeChar, if_neg (by omega), if_neg (by omega), if_pos h2]
    rw [List.cons_append, List.cons_append, List.cons_append, List.nil_append,
      utf8Decode_cons,
      utf8Step_three _ _ _ _ (by omega) (by simp [isCont]; omega)
        (by simp [isCont]; omega) (by omega) (by omega)]
    rw [show (0xE0 + n / 4096 - 0xE0) * 4096 + (0x80 + n / 64 % 64 - 0x80) * 64 +
      (0x80 + n % 64 - 0x80) = n by omega, hofnat]
  · rw [utf8EncodeChar, if_neg (by omega), if_neg (by omega), if_neg (by omega)]
    rw [List.cons_append, List.cons_append, List.cons_append, List.cons_append,
      List.nil_append, utf8Decode_cons,
      utf8Step_four _ _ _ _ _ (by omega) (by simp [isCont]; omega)
        (by simp [isCont]; omega) (by simp [isCont]; omega) (by omega) (by omega)]
    rw [show (0xF0 + n / 262144 - 0xF0) * 262144 + (0x80 + n / 4096 % 64 - 0x80) *
      4096 + (0x80 + n / 64 % 64 - 0x80) * 64 + (0x80 + n % 64 - 0x80) = n by omega,
      hofnat]

theorem utf8Decode_utf8Encode (s : Str) : utf8Decode (utf8Encode s) = s := by
  induction s with
  | nil => rw [utf8Encode, utf8Decode]
  | cons c cs ih => rw [utf8Encode, utf8Decode_encodeChar, ih]

/-! ## Supporting lemmas: split, substring and alphabet facts -/

theorem hasSub_mem (hay nd : Str) (h : hasSub hay nd = true) :
    ∀ c ∈ nd, c ∈ hay := by
  induction hay with
  | nil =>
      intro c hc
      rw [hasSub] at h
      rcases nd with _ | _
      · simp at hc
      · simp [List.isEmpty] at h
  | cons a t ih =>
      intro c hc
      rw [hasSub, Bool.or_eq_true] at h
      rcases h with h | h
      · exact (List.isPrefixOf_iff_prefix.mp h).subset hc
      · exact List.mem_cons_of_mem a (ih h c hc)

theorem hasSub_not (hay nd : Str) (c : Char) (hcn : c ∈ nd) (hch : c ∉ hay) :
    hasSub hay nd = false := by
  rcases hh : hasSub hay nd with _ | _
  · rfl
  · exact absurd (hasSub_mem hay nd hh c hcn) hch

theorem splitCh_ne_nil (sep : Char) (l : Str) : splitCh sep l ≠ [] := by
  induction l with
  | nil => simp [splitCh]
  | cons c cs ih =>
      rw [splitCh]
      rcases h : splitCh sep cs with _ | ⟨hd, tl⟩
      · exact absurd h ih
      · show (if c = sep then [] :: hd :: tl else (c :: hd) :: tl) ≠ []
        split <;> simp

theorem splitCh_not_mem (sep : Char) (xs : Str) (h : sep ∉ xs) :
    splitCh sep xs = [xs] := by
  induction xs with
  | nil => rfl
  | cons c cs ih =>
      have hcs : sep ∉ cs := fun hx => h (List.mem_cons_of_mem c hx)
      have hc : c ≠ sep := fun he => h (he ▸ List.mem_cons_self c cs)
      rw [splitCh, ih hcs]
      show (if c = sep then [[], cs] else [c :: cs]) = [c :: cs]
      rw [if_neg hc]

theorem splitCh_append_sep (sep : Char) (xs ys : Str) (h : sep ∉ xs) :
    splitCh sep (xs ++ sep :: ys) = xs :: splitCh sep ys := by
  induction xs with
  | nil =>
      rw [List.nil_append, splitCh]
      rcases hys : splitCh sep ys with _ | ⟨hd, tl⟩
      · exact absurd hys (splitCh_ne_nil sep ys)
      · show (if sep = sep then [] :: hd :: tl else (sep :: hd) :: tl) =
          [] :: hd :: tl
        rw [if_pos rfl]
  | cons c cs ih =>
      have hcs : sep ∉ cs := fun hx => h (List.mem_cons_of_mem c hx)
      have hc : c ≠ sep := fun he => h (he ▸ List.mem_cons_self c cs)
      rw [List.cons_append, splitCh, ih hcs]
      show (if c = sep then [] :: cs :: splitCh sep ys
          else (c :: cs) :: splitCh sep ys) = (c :: cs) :: splitCh sep ys
      rw [if_neg hc]

theorem stripPad_no_pad (l : Str) (h : ∀ c ∈ l, c ≠ '=') : stripPad l = l := by
  unfold stripPad
  split
  · rcases hls : l.reverse with _ | ⟨c1, _ | ⟨c2, rest⟩⟩
    · rfl
    · have hc1 : c1 ≠ '=' := h _ (List.mem_reverse.mp (by rw [hls]; simp))
      show (if c1 = '=' then ([] : Str) else l) = l
      rw [if_neg hc1]
    · have hc1 : c1 ≠ '=' := h _ (List.mem_reverse.mp (by rw [hls]; simp))
      show (if c1 = '=' then
          if c2 = '=' then rest.reverse else (c2 :: rest).reverse else l) = l
      rw [if_neg hc1]
  · rfl

theorem mapM_b64val_none (l : Str) (c : Char) (hc : c ∈ l)
    (hnone : b64val c = none) : l.mapM b64val = none := by
  induction l with
  | nil => simp at hc
  | cons a t ih =>
      rw [List.mapM_cons]
      rcases List.mem_cons.mp hc with rfl | hct
      · rw [hnone]
        rfl
      · rcases ha : b64val a with _ | v
        · rfl
        · simp only [ha, Option.pure_def, Option.bind_eq_bind, Option.some_bind,
            ih hct]
          rfl

theorem keyChars_facts :
    keyChars.all (fun c => decide (c.toNat < 256) && decide (c ≠ SEPARATOR)) =
      true := by
  decide

/-! ## Claims -/

/-- Claim C1: for every plaintext string and every key derived from a key
seed (and every per-message IV), decrypting the result of encrypting that
plaintext with that key yields the original plaintext:
`decryptMessage (encryptMessage text key iv) key = text`. -/
theorem c1_encrypt_decrypt_roundtrip (text password : Str) (iv : List Nat) :
    decryptMessage (encryptMessage text password iv) password = text := by
  unfold decryptMessage encryptMessage subtleEncrypt subtleDecrypt
  rw [if_pos ⟨rfl, rfl⟩]
  exact utf8Decode_utf8Encode text

/-- Claim C2: decrypting a payload encrypted under one key with a key
derived from any different seed never throws (the embedding of the
source's `try`/`catch` is total) and never returns a ciphertext-derived
string: it always returns the fixed sentinel `?? [Decryption Failed] ??`,
the value with which `decryptMessage` realises the spec's
DecryptionFailure. -/
theorem c2_wrong_key_sentinel (text k1 k2 : Str) (iv : List Nat)
    (h : k1 ≠ k2) :
    decryptMessage (encryptMessage text k1 iv) k2 = decryptionFailedText := by
  unfold decryptMessage encryptMessage subtleEncrypt subtleDecrypt
  rw [if_neg]
  intro hc
  exact h (by simpa [getKey] using hc.1)

/-- Claim C2 witness: a concrete wrong-key decryption returns the
sentinel. -/
theorem c2_wrong_key_sentinel_witness :
    "KEY1".toList ≠ "KEY2".toList ∧
      decryptMessage (encryptMessage "hello".toList "KEY1".toList [1, 2, 3])
        "KEY2".toList = decryptionFailedText :=
  ⟨by decide, c2_wrong_key_sentinel "hello".toList "KEY1".toList
    "KEY2".toList [1, 2, 3] (by decide)⟩

/-- Claim C6: `getKey` passes the seed through PBKDF2 with SHA-256 and
100000 (at least 100000) iterations, a fixed application-wide salt constant
that ignores the salt argument (so no per-session salt exists), requesting a
256-bit AES-GCM key; derivation is a deterministic function of the seed
alone, so two parties holding the same seed derive identical keys with no
handshake. -/
theorem c6_key_derivation_fixed_params :
    (∀ saltArg : List Nat, getKeyConfig saltArg =
        { salt := fixedSalt, iterations := 100000, hash := "SHA-256".toList,
          keyAlgo := "AES-GCM".toList, keyLength := 256 }) ∧
      fixedSalt = utf8Encode "RETRO_CHAT_FIXED_SALT_V1".toList ∧
      100000 ≤ (getKeyConfig defaultSaltArg).iterations ∧
      (∀ s1 s2 : List Nat, (getKeyConfig s1).salt = (getKeyConfig s2).salt) ∧
      (∀ s1 s2 : List Nat, ∀ seed : Str, getKey s1 seed = getKey s2 seed) := by
  exact ⟨fun _ => rfl, rfl, by norm_num [getKeyConfig], fun _ _ => rfl,
    fun _ _ _ => rfl⟩

/-- Claim C8 counterexample: the claim says every generated character is
drawn from a safe alphabet excluding visually ambiguous characters such as
0/O and 1/l/I; but with the index stream constantly picking index 52 the
generator returns `"000000000000"`, so the output can contain `0` — indeed
all five ambiguous characters belong to the source alphabet. -/
theorem c8_counterexample :
    generateRandomKey (fun _ => (⟨52, by norm_num⟩ : Fin 62)) =
        "000000000000".toList ∧
      '0' ∈ generateRandomKey (fun _ => (⟨52, by norm_num⟩ : Fin 62)) ∧
      '0' ∈ keyChars ∧ 'O' ∈ keyChars ∧ '1' ∈ keyChars ∧ 'l' ∈ keyChars ∧
      'I' ∈ keyChars := by
  refine ⟨by decide, by decide, by decide, by decide, by decide, by decide,
    by decide⟩

/-- Claim C8 (amended): `generateRandomKey` always produces a code of the
fixed length 12 whose every character is drawn from the 62-character
alphanumeric alphabet `A-Z a-z 0-9`; that alphabet is not restricted to
unambiguous characters. -/
theorem c8_amended_fixed_length_alnum (r : Nat → Fin 62) :
    (generateRandomKey r).length = 12 ∧
      ∀ c ∈ generateRandomKey r, c ∈ keyChars := by
  constructor
  · simp [generateRandomKey]
  · intro c hc
    simp only [generateRandomKey, List.mem_map] at hc
    obtain ⟨i, _, rfl⟩ := hc
    have h62 : ((r i) : Nat) < keyChars.length := by
      have hlt := (r i).isLt
      have hkl : keyChars.length = 62 := by decide
      omega
    rw [List.getD_eq_getElem _ _ h62]
    exact List.getElem_mem h62

/-- Claim C9: the relay message handler discards every inbound frame whose
sender equals the local username and whose type is not SYSTEM before any
dispatch, leaving the whole handler state — message log, remote-typing
flag, screen and outbox — unchanged; in particular the client's own echoed
CHAT and TYPING frames never append a duplicate log entry or set the
remote-typing flag. -/
theorem c9_self_frames_discarded (username key : Str) (isHost : Bool)
    (mkId : Str) (now : Nat) (st : HandlerState) (msg : NetworkMessage)
    (hsender : msg.sender = some username)
    (htype : msg.type ≠ MsgType.SYSTEM) :
    onMessage username key isHost mkId now st msg = st := by
  unfold onMessage
  rw [if_pos ⟨hsender, htype⟩]

/-- Claim C9 witness: an echoed own CHAT frame leaves a concrete handler
state unchanged. -/
theorem c9_self_frames_discarded_witness :
    onMessage "alice".toList "k".toList false "id1".toList 5
        ⟨[], false, AppScreen.CHAT, []⟩
        ⟨MsgType.CHAT, none, some "alice".toList, none⟩ =
      ⟨[], false, AppScreen.CHAT, []⟩ :=
  c9_self_frames_discarded "alice".toList "k".toList false "id1".toList 5
    ⟨[], false, AppScreen.CHAT, []⟩
    ⟨MsgType.CHAT, none, some "alice".toList, none⟩ rfl (by decide)

/-- Claim C5: a READ_RECEIPT whose messageId matches a local log entry flips
that entry's status to read while every other entry and the log length are
preserved; a READ_RECEIPT whose messageId matches no local entry is a
no-op, leaving the log's length and contents unchanged (the handler is a
total function, so it cannot throw). -/
theorem c5_read_receipt (log : List Message) (mid : Str) :
    (handleReadReceipt log mid).length = log.length ∧
      (∀ m ∈ log, m.id = mid →
        { m with status := some MsgStatus.read } ∈ handleReadReceipt log mid) ∧
      (∀ m ∈ log, m.id ≠ mid → m ∈ handleReadReceipt log mid) ∧
      ((∀ m ∈ log, m.id ≠ mid) → handleReadReceipt log mid = log) := by
  refine ⟨List.length_map log _, ?_, ?_, ?_⟩
  · intro m hm hid
    exact List.mem_map.mpr ⟨m, hm, by rw [if_pos hid]⟩
  · intro m hm hid
    exact List.mem_map.mpr ⟨m, hm, by rw [if_neg hid]⟩
  · intro hall
    unfold handleReadReceipt
    exact (List.map_congr_left fun m hm => by
      rw [if_neg (hall m hm)]
      rfl).trans (List.map_id log)

/-- Claim C5 witness: a receipt for an unknown id leaves a concrete
one-entry log unchanged, and a receipt for the entry's id flips its
status. -/
theorem c5_read_receipt_witness :
    handleReadReceipt
        [⟨"a1".toList, "alice".toList, "hi".toList, 3, false,
          some MsgStatus.sent⟩] "zzz".toList =
      [⟨"a1".toList, "alice".toList, "hi".toList, 3, false,
        some MsgStatus.sent⟩] :=
  (c5_read_receipt
    [⟨"a1".toList, "alice".toList, "hi".toList, 3, false,
      some MsgStatus.sent⟩] "zzz".toList).2.2.2 (by decide)

/-- Claim C7: on a failed attempt `tryNextBroker` advances the candidate
index by exactly one with wrap-around modulo the 3-candidate broker list,
each attempt emits a status update naming the newly tried candidate, and
the retry fires after the fixed 1000 ms delay; consequently, when the first
two candidates fail, the trace of attempted indices is 0, 1, 2 with exactly
two status updates after the initial one, and the third attempt dials
`wss://test.mosquitto.org:8081`. -/
theorem c7_broker_failover :
    BROKER_LIST.length = 3 ∧
      (∀ i, tryNextIdx i = (i + 1) % 3) ∧
      tryNextIdx 0 = 1 ∧ tryNextIdx 1 = 2 ∧ tryNextIdx 2 = 0 ∧
      retryDelayMs = 1000 ∧
      attemptIndices 0 2 = [0, 1, 2] ∧
      (attemptIndices 0 2).map dialStatus =
        ["Dialing Relay 1...".toList, "Dialing Relay 2...".toList,
          "Dialing Relay 3...".toList] ∧
      ((attemptIndices 0 2).map dialStatus).tail.length = 2 ∧
      BROKER_LIST.getD 2 [] = "wss://test.mosquitto.org:8081".toList := by
  refine ⟨rfl, fun i => rfl, by decide, by decide, by decide, rfl, by decide,
    ?_, by decide, by decide⟩
  decide

/-- When the input contains neither the `?join=` marker nor a colon, both
URL-extraction branches of `decodeConnectionCode` leave it unchanged. -/
theorem decodeConnectionCode_clean (code : Str)
    (h1 : hasSub code ("?join=".toList) = false) (h2 : ':' ∉ code) :
    decodeConnectionCode code =
      match atobBytes code with
      | none => none
      | some bytes =>
          let raw := bytes.map Char.ofNat
          let parts := splitCh SEPARATOR raw
          if parts.length = 2 then some (parts.getD 0 [], parts.getD 1 [])
          else none := by
  unfold decodeConnectionCode urlJoinParam
  rw [h1]
  by_cases hh : hasSub code ("http".toList) = true <;> simp [hh, h2]

/-- Claim C3: for every room identifier and key segment drawn from the
alphanumeric code alphabet (which contains no separator character), parsing
the encoded connection code recovers exactly the original pair:
`decodeConnectionCode (encodeConnectionCode peerId key) =
some (peerId, key)`. -/
theorem c3_connection_code_roundtrip (peerId key : Str)
    (hp : ∀ c ∈ peerId, c ∈ keyChars) (hk : ∀ c ∈ key, c ∈ keyChars) :
    decodeConnectionCode (encodeConnectionCode peerId key) =
      some (peerId, key) := by
  have hchar : ∀ c ∈ keyChars, c.toNat < 256 ∧ c ≠ SEPARATOR := by
    intro c hc
    have := List.all_eq_true.mp keyChars_facts c hc
    simpa using this
  set raw : Str := peerId ++ SEPARATOR :: key with hraweq
  have hraw : ∀ c ∈ raw, c.toNat < 256 := by
    intro c hc
    rw [hraweq] at hc
    rcases List.mem_append.mp hc with hcp | hck
    · exact (hchar c (hp c hcp)).1
    · rcases List.mem_cons.mp hck with rfl | hck
      · decide
      · exact (hchar c (hk c hck)).1
  have hbytes : ∀ b ∈ raw.map Char.toNat, b < 256 := by
    intro b hb
    rcases List.mem_map.mp hb with ⟨c, hc, rfl⟩
    exact hraw c hc
  have henc : encodeConnectionCode peerId key = b64Encode (raw.map Char.toNat) := by
    unfold encodeConnectionCode btoaOpt
    rw [if_pos (List.all_eq_true.mpr fun c hc => by simpa using hraw c hc)]
  have hchars := b64Encode_chars (raw.map Char.toNat) hbytes
  have hq : '?' ∉ b64Encode (raw.map Char.toNat) := by
    intro hmem
    rcases hchars '?' hmem with hin | heq
    · exact absurd hin (by decide)
    · exact absurd heq (by decide)
  have hcolon : ':' ∉ b64Encode (raw.map Char.toNat) := by
    intro hmem
    rcases hchars ':' hmem with hin | heq
    · exact absurd hin (by decide)
    · exact absurd heq (by decide)
  rw [henc, decodeConnectionCode_clean _
    (hasSub_not _ _ '?' (by decide) hq) hcolon,
    atobBytes_b64Encode _ hbytes]
  have hback : (raw.map Char.toNat).map Char.ofNat = raw :=
    (List.map_map _ _ _).trans
      ((List.map_congr_left fun c _ => Char.ofNat_toNat c).trans
        (List.map_id raw))
  have hsp : SEPARATOR ∉ peerId := fun hx => (hchar _ (hp _ hx)).2 rfl
  have hsk : SEPARATOR ∉ key := fun hx => (hchar _ (hk _ hx)).2 rfl
  have hsplit : splitCh SEPARATOR raw = [peerId, key] := by
    rw [hraweq, splitCh_append_sep _ _ _ hsp, splitCh_not_mem _ _ hsk]
  simp only [hback, hsplit]
  rfl

/-- Claim C3 witness: a concrete alphanumeric pair round-trips. -/
theorem c3_connection_code_roundtrip_witness :
    decodeConnectionCode
        (encodeConnectionCode "abc123".toList "XYZxyz789012".toList) =
      some ("abc123".toList, "XYZxyz789012".toList) :=
  c3_connection_code_roundtrip "abc123".toList "XYZxyz789012".toList
    (by decide) (by decide)

/-- Claim C4 counterexample: `decodeConnectionCode` performs no
minimum-length check — the 2-character input `JA` (shorter than any fixed
total code length) is not rejected but decodes to a pair whose peer-id and
key segments are both empty, a partial RoomIdentity. -/
theorem c4_short_code_counterexample :
    ("JA".toList).length = 2 ∧
      decodeConnectionCode "JA".toList = some (([] : Str), ([] : Str)) := by
  exact ⟨by decide, by decide⟩

/-- Claim C4 (amended): every input consisting only of separator characters
is rejected with `none` (as is every input failing base64 decoding or not
splitting into exactly two segments), and no exception escapes; but the
function performs no minimum-length check, so a short input such as `JA`
decodes to a pair with empty segments rather than being rejected. -/
theorem c4_separator_only_rejected (code : Str) (h : ∀ c ∈ code, c = '$') :
    decodeConnectionCode code = none := by
  rcases code with _ | ⟨c0, rest⟩
  · decide
  · have hq : '?' ∉ c0 :: rest := by
      intro hx
      have := h _ hx
      simp at this
    have hcolon : ':' ∉ c0 :: rest := by
      intro hx
      have := h _ hx
      simp at this
    rw [decodeConnectionCode_clean _ (hasSub_not _ _ '?' (by decide) hq) hcolon]
    have hfilter : (c0 :: rest).filter (fun c => ¬ isB64Ws c) = c0 :: rest := by
      rw [List.filter_eq_self]
      intro c hc
      rw [h c hc]
      decide
    have hstrip : stripPad (c0 :: rest) = c0 :: rest := by
      refine stripPad_no_pad _ fun c hc => ?_
      rw [h c hc]
      decide
    have hatob : atobBytes (c0 :: rest) = none := by
      unfold atobBytes
      rw [hfilter, hstrip]
      by_cases hlen : (c0 :: rest).length % 4 = 1
      · rw [if_pos hlen]
      · rw [if_neg hlen,
          mapM_b64val_none _ '$' (by rw [← h c0 (by simp)]; simp) (by decide)]
    rw [hatob]

/-- Claim C4 witness: a concrete all-separator input is rejected. -/
theorem c4_separator_only_rejected_witness :
    decodeConnectionCode "$$$$".toList = none :=
  c4_separator_only_rejected "$$$$".toList (by decide)

/-- Claim C10: `decodeConnectionCode` is total over arbitrary inputs — it
returns either a pair or `none`, every throwing platform call being modelled
by its caught `Option` branch — and in particular a URL without a join
parameter, non-base64 text, and an input splitting into three segments all
yield `none`. -/
theorem c10_decode_total :
    (∀ code : Str, decodeConnectionCode code = none ∨
        ∃ p k : Str, decodeConnectionCode code = some (p, k)) ∧
      decodeConnectionCode "https://example.com/nojoin".toList = none ∧
      decodeConnectionCode "!!not*base64!!".toList = none ∧
      decodeConnectionCode (encodeConnectionCode "a".toList "b$c".toList) =
        none := by
  refine ⟨?_, by decide, by decide, by decide⟩
  intro code
  rcases h : decodeConnectionCode code with _ | ⟨p, k⟩
  · exact Or.inl rfl
  · exact Or.inr ⟨p, k, rfl⟩



end RetroChat
